import Mathlib

/-!
Verification of the `pyadm` administrative CLI (directory `src/pyadm`) against
its natural-language specification.

The relevant Python code is shallowly embedded: Python strings are Lean
`String`s, and character-level operations (`upper`, `startswith`, `endswith`,
`replace`, `split`, `int(...)`, lexicographic comparison) are carried out on
`String.data` (`List Char`) by structurally recursive functions, so that every
definition computes by kernel reduction.  Behaviour that lives in vendor SDKs
(the Elasticsearch/LDAP/Proxmox network calls) is passed in as explicit data
(lists of live resources, a bind oracle), exactly as the surrounding code
consumes it.
-/

deriving instance DecidableEq for Except

namespace Pyadm

/-- Embedding of Python `str.upper()` as used on config section names and
prefixes (ASCII identifiers such as `LDAP_PROD`): uppercase each character. -/
def pyUpper (s : String) : String := ⟨s.data.map Char.toUpper⟩

/-- Embedding of Python `str.startswith(pre)`: prefix test on characters. -/
def pyStartsWith (s pre : String) : Bool := pre.data.isPrefixOf s.data

/-- `ClusterConfig.get_clusters` (config.py lines 13-25): the names of the
config sections whose name starts, case-insensitively, with `pre`, kept in
original file order.  The Python method returns a dict `name -> section`;
`configparser` section names are unique and Python dicts preserve insertion
order, so the ordered list of matching names is a faithful model. -/
def get_clusters (sections : List String) (pre : String) : List String :=
  sections.filter (fun s => pyStartsWith (pyUpper s) (pyUpper pre))

/-- `ClusterConfig.get_cluster` (config.py lines 27-44), returning the chosen
section name (standing for its config dict), or the
`"No {prefix} cluster/server defined in config."` `RuntimeError`.
`name = some ""` models a present-but-empty name, which Python's
`if name and name in clusters` treats as falsy. -/
def get_cluster (sections : List String) (name : Option String) (pre : String) :
    Except String String :=
  match get_clusters sections pre with
  | [] => .error ("No " ++ pre ++ " cluster/server defined in config.")
  | first :: rest =>
    let clusters := first :: rest
    let fallback : Except String String :=
      if clusters.contains (pyUpper pre) then .ok (pyUpper pre) else .ok first
    match name with
    | some n => if (n != "") && clusters.contains n then .ok n else fallback
    | none => fallback

theorem contains_eq_true_of_mem {l : List String} {a : String} (h : a ∈ l) :
    l.contains a = true :=
  List.elem_eq_true_of_mem h

theorem contains_eq_false_of_not_mem {l : List String} {a : String} (h : a ∉ l) :
    l.contains a = false := by
  cases hc : l.contains a with
  | false => rfl
  | true => exact absurd (List.elem_iff.mp hc) h

theorem mem_get_clusters_empty_of_upper_pre {sections : List String} {pre : String}
    (h : ("" : String) ∈ get_clusters sections pre) : pyUpper pre = "" := by
  simp only [get_clusters, List.mem_filter] at h
  obtain ⟨-, h⟩ := h
  simp only [pyStartsWith, pyUpper] at h
  cases hq : (pre.data.map Char.toUpper) with
  | nil =>
    have : pre.data.map Char.toUpper = ([] : List Char) := hq
    simp [pyUpper, this]
  | cons c l =>
    rw [hq] at h
    simp [List.isPrefixOf] at h

/-- C1 (amended): cluster resolution is deterministic with the fallback order
fixed by the code: with `cl` the sections whose name starts case-insensitively
with the prefix, in file order, `get_cluster` (a) errors, naming the prefix,
iff `cl` is empty; (b) returns a requested name that is a member of `cl`;
(c) otherwise returns the section named exactly the *uppercased* prefix when
present; (d) otherwise returns the first element of `cl`. -/
theorem get_cluster_resolution (sections : List String) (name : Option String)
    (pre : String) :
    (get_clusters sections pre = [] →
      get_cluster sections name pre =
        .error ("No " ++ pre ++ " cluster/server defined in config.")) ∧
    (∀ n, name = some n → n ∈ get_clusters sections pre →
      get_cluster sections name pre = .ok n) ∧
    ((∀ n, name = some n → n = "" ∨ n ∉ get_clusters sections pre) →
      pyUpper pre ∈ get_clusters sections pre →
      get_cluster sections name pre = .ok (pyUpper pre)) ∧
    (∀ first rest, get_clusters sections pre = first :: rest →
      (∀ n, name = some n → n = "" ∨ n ∉ get_clusters sections pre) →
      pyUpper pre ∉ get_clusters sections pre →
      get_cluster sections name pre = .ok first) := by
  refine ⟨?_, ?_, ?_, ?_⟩
  · intro h
    simp [get_cluster, h]
  · rintro n rfl hn
    rcases hcl : get_clusters sections pre with _ | ⟨first, rest⟩
    · rw [hcl] at hn; cases hn
    · rw [hcl] at hn
      by_cases hne : n = ""
      · subst hne
        have hpre : pyUpper pre = "" :=
          mem_get_clusters_empty_of_upper_pre (by rw [hcl]; exact hn)
        simp only [get_cluster, hcl, hpre]
        rw [contains_eq_true_of_mem hn]
        simp
      · simp only [get_cluster, hcl]
        rw [contains_eq_true_of_mem hn]
        simp [hne]
  · intro hskip hupper
    rcases hcl : get_clusters sections pre with _ | ⟨first, rest⟩
    · rw [hcl] at hupper; cases hupper
    · rw [hcl] at hupper
      rcases name with _ | n
      · simp only [get_cluster, hcl]
        rw [contains_eq_true_of_mem hupper]
        simp
      · rcases hskip n rfl with hne | hnm
        · subst hne
          simp only [get_cluster, hcl]
          rw [contains_eq_true_of_mem hupper]
          simp
        · rw [hcl] at hnm
          simp only [get_cluster, hcl]
          rw [contains_eq_false_of_not_mem hnm, contains_eq_true_of_mem hupper]
          simp
  · intro first rest hcl hskip hupper
    rw [hcl] at hupper
    rcases name with _ | n
    · simp only [get_cluster, hcl]
      rw [contains_eq_false_of_not_mem hupper]
      simp
    · rcases hskip n rfl with hne | hnm
      · subst hne
        simp only [get_cluster, hcl]
        rw [contains_eq_false_of_not_mem hupper]
        simp
      · rw [hcl] at hnm
        simp only [get_cluster, hcl]
        rw [contains_eq_false_of_not_mem hnm, contains_eq_false_of_not_mem hupper]
        simp

/-- C1 witness: on sections `[LDAP, LDAP_PROD, LDAP_DEV]` with prefix `LDAP`,
no requested name resolves to `LDAP`, and requesting `LDAP_PROD` resolves to
`LDAP_PROD`. -/
theorem get_cluster_resolution_witness :
    get_cluster ["LDAP", "LDAP_PROD", "LDAP_DEV"] none "LDAP" = .ok "LDAP" ∧
    get_cluster ["LDAP", "LDAP_PROD", "LDAP_DEV"] (some "LDAP_PROD") "LDAP" =
      .ok "LDAP_PROD" := by
  constructor
  · have h := (get_cluster_resolution ["LDAP", "LDAP_PROD", "LDAP_DEV"] none
      "LDAP").2.2.1 (by intro n hn; cases hn) (by decide)
    rw [show pyUpper "LDAP" = "LDAP" from by decide] at h
    exact h
  · exact (get_cluster_resolution ["LDAP", "LDAP_PROD", "LDAP_DEV"]
      (some "LDAP_PROD") "LDAP").2.1 "LDAP_PROD" rfl (by decide)

/-- C1 counterexample: with sections `[ldap_prod, ldap]` and prefix `ldap`,
the bare prefix `ldap` is itself a prefix-matching section, yet with no
requested name `get_cluster` returns `ldap_prod` (the first match in file
order), because config.py line 42 checks for the *uppercased* prefix `LDAP`,
not the bare prefix `ldap`. -/
theorem get_cluster_bare_prefix_cex :
    get_cluster ["ldap_prod", "ldap"] none "ldap" = .ok "ldap_prod" ∧
    "ldap" ∈ get_clusters ["ldap_prod", "ldap"] "ldap" ∧
    ("ldap_prod" : String) ≠ "ldap" := by decide

end Pyadm

namespace Pyadm

/-! ### Wildcard translation and matching (elastic/click_commands.py) -/

/-- The characters that are metacharacters of Python `re` outside a character
class. -/
def regexMetachars : List Char :=
  ['.', '^', '$', '*', '+', '?', '\x7b', '\x7d', '[', ']', '\\', '|', '(', ')']

/-- Embedding of `index.replace("*", ".*")` (click_commands.py lines 267 and
304): each `*` becomes `.*`, every other character is copied verbatim — the
code performs no escaping of regex metacharacters. -/
def replaceStar : List Char → List Char
  | [] => []
  | c :: p => (if c == '*' then ['.', '*'] else [c]) ++ replaceStar p

/-- Python `s.endswith(c)` for a single-character suffix `c`. -/
def pyEndsWithChar (s : String) (c : Char) : Bool :=
  s.data.getLast? == some c

/-- Embedding of `if not index.endswith('*'): index += '*'`
(click_commands.py lines 265-266 and 302-303). -/
def preparePattern (p : String) : String :=
  if pyEndsWithChar p '*' then p else p ++ "*"

/-- The spec's translation applied to a pattern string as-is: `*` becomes
`.*` and the result is anchored with `^`/`$` (and, as in the code, nothing
else is escaped). -/
def translatePattern (q : String) : String :=
  "^" ++ String.mk (replaceStar q.data) ++ "$"

/-- The regex string `'^' + index.replace("*", ".*") + '$'` built by the
reindex and delete commands (click_commands.py lines 265-267 and 302-304),
auto-suffix included. -/
def codePattern (p : String) : String :=
  translatePattern (preparePattern p)

/-- Boolean matcher for the fragment of Python regular expressions that the
commands construct: a sequence of literal characters, `.` (any character) and
`.*` (any, possibly empty, substring), matched against the whole string (the
code anchors with `^`/`$` and uses `re.match`, which together give a full
match).  In the output of `replaceStar` every `*` immediately follows a `.`,
so for patterns whose characters are `.`/`*`/non-metacharacters this matcher
is faithful to Python `re`. -/
def reMatch : List Char → List Char → Bool
  | [], s => s.isEmpty
  | [c], s =>
    match s with
    | [d] => c == '.' || c == d
    | _ => false
  | c :: c2 :: r, s =>
    if c == '.' && c2 == '*' then
      s.tails.any (fun s2 => reMatch r s2)
    else
      match s with
      | [] => false
      | d :: s2 => (c == '.' || c == d) && reMatch (c2 :: r) s2

/-- Whether the reindex/delete commands select index name `s` for the
user-supplied pattern `p`: auto-suffix, translate `*` to `.*`, anchor, and
match (click_commands.py lines 264-269 and 301-306). -/
def codeSelects (p s : String) : Bool :=
  reMatch (replaceStar (preparePattern p).data) s.data

/-- The spec's literal wildcard semantics: the name matches the pattern
character for character, with each `*` standing for an arbitrary (possibly
empty) substring. -/
def globMatch : List Char → List Char → Bool
  | [], s => s.isEmpty
  | c :: p, s =>
    if c == '*' then
      s.tails.any (fun s2 => globMatch p s2)
    else
      match s with
      | [] => false
      | d :: s2 => c == d && globMatch p s2

/-- Literal wildcard matching on strings, following the spec's words. -/
def specSelects (p s : String) : Bool := globMatch p.data s.data

/-- A pattern character for which the unescaped translation is still literal:
`*` itself, or anything that is not a regex metacharacter. -/
def safeChar (c : Char) : Bool := c == '*' || !(regexMetachars.contains c)

theorem replaceStar_cons_ne_nil (q : Char) (p2 : List Char) :
    replaceStar (q :: p2) ≠ [] := by
  by_cases hq : q = '*' <;> simp [replaceStar, hq]

theorem globMatch_cons_of_ne {c : Char} (hc : ¬c = '*') (p : List Char)
    (d : Char) (s2 : List Char) :
    globMatch (c :: p) (d :: s2) = (c == d && globMatch p s2) := by
  simp only [globMatch]
  rw [if_neg (by simp [hc])]

theorem reMatch_cons_cons_of_ne {c : Char} (hc : ¬c = '.') (c2 : Char)
    (r : List Char) (d : Char) (s2 : List Char) :
    reMatch (c :: c2 :: r) (d :: s2) =
      ((c == '.' || c == d) && reMatch (c2 :: r) s2) := by
  simp only [reMatch]
  rw [if_neg (by simp [hc])]

theorem reMatch_replaceStar :
    ∀ p : List Char, (∀ c ∈ p, safeChar c = true) →
      ∀ s, reMatch (replaceStar p) s = globMatch p s := by
  intro p
  induction p with
  | nil => intro _ s; rfl
  | cons c p ih =>
    intro hp s
    have hc : safeChar c = true := hp c (by simp)
    have hp' : ∀ d ∈ p, safeChar d = true := fun d hd => hp d (by simp [hd])
    by_cases hstar : c = '*'
    · subst hstar
      show reMatch ('.' :: '*' :: replaceStar p) s = globMatch ('*' :: p) s
      simp only [reMatch, globMatch, if_pos]
      norm_num
      congr 1
      funext s2
      exact ih hp' s2
    · have hmc : regexMetachars.contains c = false := by
        simpa [safeChar, hstar] using hc
      have hdot : c ≠ '.' := by
        intro h
        subst h
        simp [regexMetachars] at hmc
      have hrs : replaceStar (c :: p) = c :: replaceStar p := by
        simp [replaceStar, hstar]
      rw [hrs]
      cases p with
      | nil =>
        rcases s with _ | ⟨d, _ | ⟨e, s2⟩⟩ <;>
          simp [reMatch, globMatch, replaceStar, hstar, hdot]
      | cons q p2 =>
        rcases hq : replaceStar (q :: p2) with _ | ⟨h, t⟩
        · exact absurd hq (replaceStar_cons_ne_nil q p2)
        · rcases s with _ | ⟨d, s2⟩
          · simp [reMatch, globMatch, hstar, hdot]
          · rw [reMatch_cons_cons_of_ne hdot, globMatch_cons_of_ne hstar,
              ← hq, ih hp' s2]
            have hcd : (c == '.') = false := by simp [hdot]
            rw [hcd]
            simp

theorem preparePattern_safe {p : String} (hp : ∀ c ∈ p.data, safeChar c = true) :
    ∀ c ∈ (preparePattern p).data, safeChar c = true := by
  unfold preparePattern
  split
  · exact hp
  · intro c hc
    rw [String.data_append] at hc
    rcases List.mem_append.mp hc with h | h
    · exact hp c h
    · have hstar : c = '*' := by
        have hd : ("*" : String).data = ['*'] := rfl
        rw [hd] at h
        simpa using h
      subst hstar
      decide

/-- C2 (amended): the wildcard-to-regex translation used by the elastic
reindex and delete commands does NOT escape regex metacharacters — it only
rewrites `*` to `.*` and anchors with `^`/`$`.  Consequently command
selection agrees with literal character-for-character wildcard matching
exactly for patterns free of regex metacharacters other than `*`: for every
such pattern and every index name, the command selects the index iff the name
matches the auto-suffixed pattern literally, with `*` standing for an
arbitrary (possibly empty) substring. -/
theorem codeSelects_eq_glob (p s : String)
    (hp : ∀ c ∈ p.data, safeChar c = true) :
    codeSelects p s = globMatch (preparePattern p).data s.data :=
  reMatch_replaceStar (preparePattern p).data (preparePattern_safe hp) s.data

/-- C2 witness: for the metacharacter-free pattern `users*`, code selection
coincides with literal wildcard matching on a concrete index name. -/
theorem codeSelects_eq_glob_witness :
    codeSelects "users*" "users-1" =
      globMatch (preparePattern "users*").data "users-1".data :=
  codeSelects_eq_glob "users*" "users-1" (by decide)

/-- C2 counterexample: nothing is escaped — the pattern `a.b` (auto-suffixed
and translated to the regex `^a.b.*$`) selects the index `axbz`, although
`axbz` matches neither `a.b` nor `a.b*` literally (`.` should have been a
literal dot). -/
theorem codeSelects_no_escape_cex :
    codeSelects "a.b" "axbz" = true ∧
    specSelects "a.b" "axbz" = false ∧
    specSelects "a.b*" "axbz" = false := by decide

/-- C4: in the list-filtering commands (elastic reindex and delete), a
pattern that does not already end in `*` is suffixed with `*` before
translation to the anchored regex, and a pattern already ending in `*` is
translated unchanged. -/
theorem codePattern_suffix (p : String) :
    (pyEndsWithChar p '*' = false →
      codePattern p = translatePattern (p ++ "*")) ∧
    (pyEndsWithChar p '*' = true → codePattern p = translatePattern p) := by
  constructor <;> intro h <;>
    simp [codePattern, preparePattern, h]

/-- C4 witness: `abc` is suffixed, `ab*` is translated unchanged. -/
theorem codePattern_suffix_witness :
    codePattern "abc" = translatePattern ("abc" ++ "*") ∧
    codePattern "ab*" = translatePattern "ab*" :=
  ⟨(codePattern_suffix "abc").1 (by decide),
   (codePattern_suffix "ab*").2 (by decide)⟩

theorem reMatch_dotStar (l : List Char) : reMatch ['.', '*'] l = true := by
  show (l.tails.any fun s2 => reMatch [] s2) = true
  rw [List.any_eq_true]
  exact ⟨[], (List.mem_tails _ _).mpr List.nil_suffix, rfl⟩

/-- C7: under the wildcard matching used by the elastic reindex and delete
commands, the pattern `rsyslog-2023*` selects `rsyslog-2023.07.01` and not
`rsyslog-2022.07.01`, and the pattern `*` selects every non-empty index
name. -/
theorem wildcard_examples :
    codeSelects "rsyslog-2023*" "rsyslog-2023.07.01" = true ∧
    codeSelects "rsyslog-2023*" "rsyslog-2022.07.01" = false ∧
    ∀ s : String, s ≠ "" → codeSelects "*" s = true := by
  refine ⟨by decide, by decide, ?_⟩
  intro s _
  show reMatch (replaceStar (preparePattern "*").data) s.data = true
  have hp : replaceStar (preparePattern "*").data = ['.', '*'] := by decide
  rw [hp]
  exact reMatch_dotStar s.data

/-- C7 witness: the pattern `*` selects the concrete non-empty name `x`. -/
theorem wildcard_examples_witness : codeSelects "*" "x" = true :=
  wildcard_examples.2.2 "x" (by decide)

end Pyadm

namespace Pyadm

/-! ### Index listing (elastic/elastic.py, elastic/click_commands.py) -/

/-- One row of the `cat.indices(format="json")` backend response, as consumed
by the embedded logic: the `index` name (elastic.py line 68 indexes into it
unconditionally, so every row of a response that reaches the filter carries
this key) plus the `uuid` shown by the delete prompt; other backend fields do
not influence the control flow. -/
structure IdxEntry where
  index : String
  uuid : String
deriving DecidableEq

/-- Lexicographic code-point comparison of character lists — the order in
which Python's `sorted` compares `str` sort keys. -/
def lexLe : List Char → List Char → Bool
  | [], _ => true
  | _ :: _, [] => false
  | a :: as, b :: bs => if a = b then lexLe as bs else decide (a < b)

/-- The sort key order of `sorted(all_indices, key=lambda x: x['index'])`
(elastic.py line 69). -/
def idxLe (a b : IdxEntry) : Prop := lexLe a.index.data b.index.data = true

instance : DecidableRel idxLe := fun a b =>
  inferInstanceAs (Decidable (lexLe a.index.data b.index.data = true))

theorem lexLe_total : ∀ a b : List Char, lexLe a b = true ∨ lexLe b a = true := by
  intro a
  induction a with
  | nil => intro b; left; rfl
  | cons x as ih =>
    intro b
    cases b with
    | nil => right; rfl
    | cons y bs =>
      by_cases hxy : x = y
      · subst hxy
        rcases ih bs with h | h
        · left; simpa [lexLe] using h
        · right; simpa [lexLe] using h
      · rcases lt_or_gt_of_ne hxy with h | h
        · left; simp [lexLe, hxy, h]
        · right; simp [lexLe, Ne.symm hxy, h]

theorem lexLe_trans :
    ∀ a b c : List Char, lexLe a b = true → lexLe b c = true → lexLe a c = true := by
  intro a
  induction a with
  | nil => intro b c _ _; rfl
  | cons x as ih =>
    intro b c hab hbc
    cases b with
    | nil => simp [lexLe] at hab
    | cons y bs =>
      cases c with
      | nil => simp [lexLe] at hbc
      | cons z cs =>
        by_cases hxy : x = y <;> by_cases hyz : y = z
        · subst hxy; subst hyz
          simp only [lexLe, if_pos rfl] at hab hbc ⊢
          exact ih bs cs hab hbc
        · subst hxy
          simp only [lexLe, if_neg hyz] at hbc
          simp [lexLe, hyz, of_decide_eq_true hbc]
        · subst hyz
          simp only [lexLe, if_neg hxy] at hab
          simp [lexLe, hxy, of_decide_eq_true hab]
        · simp only [lexLe, if_neg hxy] at hab
          simp only [lexLe, if_neg hyz] at hbc
          have hxz : x < z :=
            lt_trans (of_decide_eq_true hab) (of_decide_eq_true hbc)
          simp [lexLe, ne_of_lt hxz, hxz]

instance : IsTotal IdxEntry idxLe :=
  ⟨fun a b => lexLe_total a.index.data b.index.data⟩

instance : IsTrans IdxEntry idxLe :=
  ⟨fun a b c => lexLe_trans a.index.data b.index.data c.index.data⟩

/-- `ElasticSearch.list_indices` (elastic.py lines 59-73): drop system
indices (names starting with `.`), then sort ascending by index name.
Python's stable `sorted` is modelled by the stable `List.insertionSort` with
the same code-point key order. -/
def list_indices (response : List IdxEntry) : List IdxEntry :=
  List.insertionSort idxLe
    (response.filter (fun e => !(pyStartsWith e.index ".")))

/-- The `indices --output json` command path (click_commands.py lines
210-240, run without `--limit`): `some` of the list that `json.dumps` turns
into the JSON array, or `none` when the command prints `"No indices found."`
and returns without emitting any JSON. -/
def indicesJson (response : List IdxEntry) : Option (List IdxEntry) :=
  let data := list_indices response
  if data.isEmpty then none else some data

/-- The indices selected by `elastic delete` for pattern `p`
(click_commands.py lines 300-313): drawn from `list_indices` only. -/
def deleteTargets (response : List IdxEntry) (p : String) : List IdxEntry :=
  (list_indices response).filter (fun e => codeSelects p e.index)

/-- The indices selected by `elastic reindex` for pattern `p`
(click_commands.py lines 260-275): drawn from `list_indices` only. -/
def reindexTargets (response : List IdxEntry) (p : String) : List IdxEntry :=
  (list_indices response).filter (fun e => codeSelects p e.index)

/-- C6 (amended): whenever the backend response contains at least one
non-system index, the JSON output of `elastic indices --output json` is the
array of exactly the non-system rows of the response, sorted ascending by
index name; concretely, a backend returning two non-system indices in
descending order yields exactly those two objects, ascending.  (With no
non-system index the command prints `"No indices found."` instead of an
empty array — see the counterexample.) -/
theorem indicesJson_sorted (response : List IdxEntry)
    (hne : response.filter (fun e => !(pyStartsWith e.index ".")) ≠ []) :
    (∃ l, indicesJson response = some l ∧
      List.Pairwise idxLe l ∧
      l.Perm (response.filter (fun e => !(pyStartsWith e.index ".")))) ∧
    indicesJson [⟨"idx-b", "u2"⟩, ⟨"idx-a", "u1"⟩] =
      some [⟨"idx-a", "u1"⟩, ⟨"idx-b", "u2"⟩] := by
  constructor
  · refine ⟨list_indices response, ?_, ?_, ?_⟩
    · unfold indicesJson
      rw [if_neg]
      intro h
      apply hne
      have hperm := List.perm_insertionSort idxLe
        (response.filter (fun e => !(pyStartsWith e.index ".")))
      rw [List.isEmpty_iff] at h
      unfold list_indices at h
      rw [h] at hperm
      exact (List.Perm.nil_eq hperm).symm
    · exact List.sorted_insertionSort idxLe _
    · exact List.perm_insertionSort idxLe _
  · decide

/-- C6 witness: the general part of `indicesJson_sorted`, instantiated on the
two-element unsorted backend response. -/
theorem indicesJson_sorted_witness :
    ∃ l, indicesJson [⟨"idx-b", "u2"⟩, ⟨"idx-a", "u1"⟩] = some l ∧
      List.Pairwise idxLe l ∧
      l.Perm ([⟨"idx-b", "u2"⟩, ⟨"idx-a", "u1"⟩].filter
        (fun e => !(pyStartsWith e.index "."))) :=
  (indicesJson_sorted [⟨"idx-b", "u2"⟩, ⟨"idx-a", "u1"⟩] (by decide)).1

/-- C6 counterexample: a backend response whose only index is the system
index `.kibana` makes the command print `"No indices found."` and emit no
JSON array at all (`none`), where the claim promises a JSON array with one
object per listed index (here: an empty array). -/
theorem indicesJson_empty_cex :
    indicesJson [⟨".kibana", "u0"⟩] = none := by decide

/-- C9: every element of `list_indices` has an index name that does not
start with `.`, and the delete and reindex commands choose their targets
only from `list_indices`, so for every pattern and backend response no
dot-prefixed (system) index is ever selected. -/
theorem no_system_index_selected (response : List IdxEntry) (p : String)
    (e : IdxEntry) :
    (e ∈ list_indices response → pyStartsWith e.index "." = false) ∧
    (e ∈ deleteTargets response p → pyStartsWith e.index "." = false) ∧
    (e ∈ reindexTargets response p → pyStartsWith e.index "." = false) := by
  have h1 : e ∈ list_indices response → pyStartsWith e.index "." = false := by
    intro h
    unfold list_indices at h
    have hmem := (List.perm_insertionSort idxLe
      (response.filter (fun e => !(pyStartsWith e.index ".")))).subset h
    simpa using (List.mem_filter.mp hmem).2
  exact ⟨h1, fun h => h1 (List.mem_filter.mp h).1,
    fun h => h1 (List.mem_filter.mp h).1⟩

/-- C9 witness: with a backend holding `logs-1` and `.sys`, the entry
selected by `delete` with pattern `*` is not dot-prefixed. -/
theorem no_system_index_selected_witness :
    pyStartsWith (IdxEntry.mk "logs-1" "u1").index "." = false :=
  (no_system_index_selected [⟨"logs-1", "u1"⟩, ⟨".sys", "u2"⟩] "*"
    ⟨"logs-1", "u1"⟩).2.1 (by decide)

end Pyadm

namespace Pyadm

/-! ### Proxmox resource resolution (pvecli/pve.py, pvecli/pve_commands.py) -/

/-- One entry of the live VM/container list as `get_vms`/`get_containers`
return it: the numeric `vmid`, the `name`, and the `node` key the code adds
while aggregating. -/
structure PveRes where
  vmid : Int
  name : String
  node : String
deriving DecidableEq

/-- Python truthiness of an optional string (`if not node: ...`):
`None` and `""` are falsy. -/
def truthy : Option String → Bool
  | none => false
  | some s => !(s == "")

/-- `int(resource_id)` succeeding or raising `ValueError`
(pve_commands.py lines 113-117): an optional single sign followed by a
non-empty digit string.  (Python additionally strips surrounding whitespace
and permits `_` separators; such identifiers do not occur here and are not
modelled.) -/
def digitsVal : List Char → Nat → Option Nat
  | [], acc => some acc
  | c :: l, acc =>
    if c.isDigit then digitsVal l (acc * 10 + (c.toNat - '0'.toNat)) else none

def pyInt? (s : String) : Option Int :=
  match s.data with
  | [] => none
  | '-' :: l => if l.isEmpty then none else (digitsVal l 0).map (fun n => -(n : Int))
  | '+' :: l => if l.isEmpty then none else (digitsVal l 0).map (fun n => (n : Int))
  | l => (digitsVal l 0).map (fun n => (n : Int))

/-- `PVEClient.find_vm_by_name` (pve.py lines 520-538): linear scan of the
live VM list (fetched in `get_online_nodes` order), first exact name match. -/
def find_vm_by_name : List PveRes → String → Option PveRes
  | [], _ => none
  | r :: rest, name =>
    if r.name == name then some r else find_vm_by_name rest name

/-- `PVEClient.find_container_by_name` (pve.py lines 540-558): the same loop
over the live container list. -/
def find_container_by_name : List PveRes → String → Option PveRes
  | [], _ => none
  | r :: rest, name =>
    if r.name == name then some r else find_container_by_name rest name

/-- The `click.ClickException`s that `resolve_resource_id` can raise; each
constructor records the data interpolated into the corresponding message
(pve_commands.py lines 132-136, 147-148 and 151-155). -/
inductive PveErr where
  | nodeNotFound (rtype : String) (vmid : Int)
  | notFound (rtype : String) (name : String)
  | nodeMismatch (rtype : String) (name : String) (foundNode requestedNode : String)
deriving DecidableEq

/-- `resolve_resource_id` (pve_commands.py lines 96-157).  `resources` is the
live list the client fetches in the branch being exercised
(`client.get_vms()` or `client.get_containers()`); `rtype` selects the finder
used by the name branch, as `resource_type` does in the code. -/
def resolve_resource_id (resources : List PveRes) (resource_id : String)
    (node : Option String) (rtype : String) : Except PveErr (Int × String) :=
  match pyInt? resource_id with
  | some numeric_id =>
    let node2 : Option String :=
      if truthy node then node
      else
        match resources.find? (fun r => r.vmid == numeric_id) with
        | some r => some r.node
        | none => node
    if truthy node2 then .ok (numeric_id, node2.getD "")
    else .error (.nodeNotFound rtype numeric_id)
  | none =>
    match (if rtype == "vm" then find_vm_by_name resources resource_id
           else find_container_by_name resources resource_id) with
    | none => .error (.notFound rtype resource_id)
    | some r =>
      if truthy node && !(r.node == node.getD "") then
        .error (.nodeMismatch rtype resource_id r.node (node.getD ""))
      else .ok (r.vmid, r.node)

/-- C3: the resource-identifier resolution contract: a numeric identifier is
treated as an ID, and with no node given the live list is scanned for it to
discover its node, erroring when no resource carries the ID; a name is
resolved by exact match in the live list, erroring when absent; a found name
combined with a differing explicit node raises the descriptive mismatch
error.  The last three conjuncts check the spec's concrete scenario on the
live list `[(100, web, n1), (101, db, n2)]`. -/
theorem resolve_resource_contract (resources : List PveRes)
    (identifier : String) (node : Option String) :
    (∀ k, pyInt? identifier = some k →
      ∀ r, resources.find? (fun x => x.vmid == k) = some r → r.node ≠ "" →
        resolve_resource_id resources identifier none "vm" = .ok (k, r.node)) ∧
    (∀ k, pyInt? identifier = some k →
      resources.find? (fun x => x.vmid == k) = none →
        resolve_resource_id resources identifier none "vm" =
          .error (.nodeNotFound "vm" k)) ∧
    (pyInt? identifier = none →
      find_vm_by_name resources identifier = none →
        resolve_resource_id resources identifier node "vm" =
          .error (.notFound "vm" identifier)) ∧
    (∀ r, pyInt? identifier = none →
      find_vm_by_name resources identifier = some r →
      ∀ m, node = some m → m ≠ "" → m ≠ r.node →
        resolve_resource_id resources identifier node "vm" =
          .error (.nodeMismatch "vm" identifier r.node m)) ∧
    (∀ r, pyInt? identifier = none →
      find_vm_by_name resources identifier = some r →
      (node = none ∨ node = some r.node) →
        resolve_resource_id resources identifier node "vm" =
          .ok (r.vmid, r.node)) ∧
    resolve_resource_id [⟨100, "web", "n1"⟩, ⟨101, "db", "n2"⟩] "100" none "vm" =
      .ok (100, "n1") ∧
    resolve_resource_id [⟨100, "web", "n1"⟩, ⟨101, "db", "n2"⟩] "db" none "vm" =
      .ok (101, "n2") ∧
    resolve_resource_id [⟨100, "web", "n1"⟩, ⟨101, "db", "n2"⟩] "db" (some "n1") "vm" =
      .error (.nodeMismatch "vm" "db" "n2" "n1") := by
  refine ⟨?_, ?_, ?_, ?_, ?_, by decide, by decide, by decide⟩
  · intro k hk r hr hrn
    simp [resolve_resource_id, hk, hr, truthy, hrn]
  · intro k hk hr
    simp [resolve_resource_id, hk, hr, truthy]
  · intro hk hr
    simp [resolve_resource_id, hk, hr]
  · intro r hk hr m hm hme hmr
    subst hm
    simp [resolve_resource_id, hk, hr, truthy, hme, Ne.symm hmr]
  · intro r hk hr hnode
    rcases hnode with rfl | rfl
    · simp [resolve_resource_id, hk, hr, truthy]
    · by_cases hrn : r.node = ""
      · simp [resolve_resource_id, hk, hr, truthy, hrn]
      · simp [resolve_resource_id, hk, hr, truthy, hrn]

/-- C3 witness: the ID branch of the contract applied to the concrete live
list, discovering the node of VM 100. -/
theorem resolve_resource_contract_witness :
    resolve_resource_id [⟨100, "web", "n1"⟩, ⟨101, "db", "n2"⟩] "100" none "vm" =
      .ok (100, "n1") :=
  (resolve_resource_contract [⟨100, "web", "n1"⟩, ⟨101, "db", "n2"⟩] "100"
    none).1 100 (by decide) ⟨100, "web", "n1"⟩ (by decide) (by decide)

end Pyadm

namespace Pyadm

theorem find_vm_by_name_first (pre post : List PveRes) (r : PveRes)
    (hname : ∀ x ∈ pre, x.name ≠ r.name) :
    find_vm_by_name (pre ++ r :: post) r.name = some r := by
  induction pre with
  | nil => simp [find_vm_by_name]
  | cons x xs ih =>
    have hx : x.name ≠ r.name := hname x (by simp)
    have hxs : ∀ y ∈ xs, y.name ≠ r.name := fun y hy => hname y (by simp [hy])
    simp only [List.cons_append, find_vm_by_name]
    rw [if_neg (by simp [hx])]
    exact ih hxs

theorem find_container_by_name_first (pre post : List PveRes) (r : PveRes)
    (hname : ∀ x ∈ pre, x.name ≠ r.name) :
    find_container_by_name (pre ++ r :: post) r.name = some r := by
  induction pre with
  | nil => simp [find_container_by_name]
  | cons x xs ih =>
    have hx : x.name ≠ r.name := hname x (by simp)
    have hxs : ∀ y ∈ xs, y.name ≠ r.name := fun y hy => hname y (by simp [hy])
    simp only [List.cons_append, find_container_by_name]
    rw [if_neg (by simp [hx])]
    exact ih hxs

/-- C10: with several live resources sharing the requested name, resolution
by name returns the `(vmid, node)` of the *first* match in fetched list order
and never raises an ambiguity error; an explicit node is compared against
that first match only.  The final two conjuncts exercise a concrete
duplicate: two VMs named `web` on nodes `n1` and `n2` — requesting `web` on
node `n2` raises the mismatch error naming `n1`, although a VM named `web`
does exist on `n2`. -/
theorem resolve_duplicate_name_first (pre post : List PveRes) (r : PveRes)
    (node : Option String)
    (hname : ∀ x ∈ pre, x.name ≠ r.name)
    (hint : pyInt? r.name = none) :
    find_vm_by_name (pre ++ r :: post) r.name = some r ∧
    find_container_by_name (pre ++ r :: post) r.name = some r ∧
    (truthy node = false →
      resolve_resource_id (pre ++ r :: post) r.name node "vm" =
        .ok (r.vmid, r.node)) ∧
    (∀ m, node = some m → m ≠ "" → m ≠ r.node →
      resolve_resource_id (pre ++ r :: post) r.name node "vm" =
        .error (.nodeMismatch "vm" r.name r.node m)) ∧
    resolve_resource_id [⟨100, "web", "n1"⟩, ⟨200, "web", "n2"⟩] "web" none "vm" =
      .ok (100, "n1") ∧
    resolve_resource_id [⟨100, "web", "n1"⟩, ⟨200, "web", "n2"⟩] "web"
        (some "n2") "vm" =
      .error (.nodeMismatch "vm" "web" "n1" "n2") := by
  have hfind := find_vm_by_name_first pre post r hname
  refine ⟨hfind, find_container_by_name_first pre post r hname, ?_, ?_,
    by decide, by decide⟩
  · intro hnode
    simp [resolve_resource_id, hint, hfind, hnode]
  · intro m hm hme hmr
    subst hm
    simp [resolve_resource_id, hint, hfind, truthy, hme, Ne.symm hmr]

/-- C10 witness: the first-match clause applied to a concrete duplicate list
with no explicit node. -/
theorem resolve_duplicate_name_first_witness :
    resolve_resource_id [⟨100, "web", "n1"⟩, ⟨200, "web", "n2"⟩] "web" none "vm" =
      .ok (100, "n1") :=
  (resolve_duplicate_name_first [] [⟨200, "web", "n2"⟩] ⟨100, "web", "n1"⟩ none
    (by intro x hx; cases hx) (by decide)).2.2.1 rfl

end Pyadm

namespace Pyadm

/-! ### Multi-node aggregation (pve.py get_vms / get_containers) -/

/-- A VM/container row as the per-node API call returns it, before the code
adds the `node` key (pve.py lines 154-156 and 216-218). -/
structure RawVM where
  vmid : Int
  name : String
deriving DecidableEq

/-- `vm['node'] = node_name` applied to a fetched row. -/
def tagNode (n : String) (v : RawVM) : PveRes := ⟨v.vmid, v.name, n⟩

/-- One iteration of the all-nodes loop (pve.py lines 164-174 / 226-236):
extend the collected list on success, append a message built by `msg` on
failure.  `fetch` is the oracle for `self.api.nodes(node).qemu.get()` (or
`.lxc.get()`). -/
def aggStep (msg : String → String → String)
    (fetch : String → Except String (List RawVM))
    (acc : List PveRes × List String) (n : String) : List PveRes × List String :=
  match fetch n with
  | .ok l => (acc.1 ++ l.map (tagNode n), acc.2)
  | .error e => (acc.1, acc.2 ++ [msg n e])

def vmMsg (n e : String) : String :=
  "Error getting VMs from node '" ++ n ++ "': " ++ e

def ctMsg (n e : String) : String :=
  "Error getting containers from node '" ++ n ++ "': " ++ e

/-- `PVEClient.get_vms` with `node=None` (pve.py lines 129-189): visit the
online nodes in order collecting tagged rows and error messages; afterwards
raise iff there were errors and nothing was collected (line 177, the outer
handler at 185-189 re-raises), else log the errors as warnings and return
the collected list.  The raised `Exception` carries `"; ".join(errors)`;
the unjoined message list models it. -/
def get_vms (onlineNodes : List String)
    (fetch : String → Except String (List RawVM)) :
    Except (List String) (List PveRes) :=
  let step := onlineNodes.foldl (aggStep vmMsg fetch) ([], [])
  if !step.2.isEmpty && step.1.isEmpty then .error step.2 else .ok step.1

/-- `PVEClient.get_containers` with `node=None` (pve.py lines 191-251):
identical control flow over `.lxc.get()`. -/
def get_containers (onlineNodes : List String)
    (fetch : String → Except String (List RawVM)) :
    Except (List String) (List PveRes) :=
  let step := onlineNodes.foldl (aggStep ctMsg fetch) ([], [])
  if !step.2.isEmpty && step.1.isEmpty then .error step.2 else .ok step.1

/-- The union, in node order, of the successful nodes' tagged results. -/
def collectParts (fetch : String → Except String (List RawVM)) :
    List String → List PveRes
  | [] => []
  | n :: ns =>
    (match fetch n with
     | .ok l => l.map (tagNode n)
     | .error _ => []) ++ collectParts fetch ns

/-- The error messages recorded for the failing nodes, in node order. -/
def errParts (msg : String → String → String)
    (fetch : String → Except String (List RawVM)) :
    List String → List String
  | [] => []
  | n :: ns =>
    (match fetch n with
     | .ok _ => []
     | .error e => [msg n e]) ++ errParts msg fetch ns

theorem foldl_aggStep (msg : String → String → String)
    (fetch : String → Except String (List RawVM)) :
    ∀ (nodes : List String) (a : List PveRes) (b : List String),
      nodes.foldl (aggStep msg fetch) (a, b) =
        (a ++ collectParts fetch nodes, b ++ errParts msg fetch nodes) := by
  intro nodes
  induction nodes with
  | nil => intro a b; simp [collectParts, errParts]
  | cons n ns ih =>
    intro a b
    simp only [List.foldl_cons, collectParts, errParts]
    cases hf : fetch n with
    | ok l => rw [show aggStep msg fetch (a, b) n = (a ++ l.map (tagNode n), b) by
        simp [aggStep, hf], ih]; simp [hf]
    | error e => rw [show aggStep msg fetch (a, b) n = (a, b ++ [msg n e]) by
        simp [aggStep, hf], ih]; simp [hf]

theorem errParts_ne_nil_iff (msg : String → String → String)
    (fetch : String → Except String (List RawVM)) :
    ∀ nodes : List String,
      errParts msg fetch nodes ≠ [] ↔ ∃ n ∈ nodes, ∃ e, fetch n = .error e := by
  intro nodes
  induction nodes with
  | nil => simp [errParts]
  | cons n ns ih =>
    cases hf : fetch n with
    | ok l =>
      simp only [errParts, hf, List.nil_append]
      rw [ih]
      constructor
      · rintro ⟨m, hm, e, he⟩
        exact ⟨m, by simp [hm], e, he⟩
      · rintro ⟨m, hm, e, he⟩
        rcases List.mem_cons.mp hm with rfl | hm'
        · rw [hf] at he; cases he
        · exact ⟨m, hm', e, he⟩
    | error e =>
      simp only [errParts, hf]
      constructor
      · intro _
        exact ⟨n, by simp, e, hf⟩
      · intro _
        simp

/-- C5 (amended): aggregating over several Proxmox nodes, `get_vms` and
`get_containers` log failed nodes and exclude them, returning the union of
the successful nodes' results — but they raise exactly when some node failed
AND the successful nodes contributed an empty union (pve.py line 177
`if errors and not vms`), not only when every queried node failed.  The
first conjunct characterises the failing-node condition. -/
theorem get_vms_partial_failure (onlineNodes : List String)
    (fetch : String → Except String (List RawVM)) :
    (errParts vmMsg fetch onlineNodes ≠ [] ↔
      ∃ n ∈ onlineNodes, ∃ e, fetch n = .error e) ∧
    (errParts vmMsg fetch onlineNodes ≠ [] →
      collectParts fetch onlineNodes = [] →
      get_vms onlineNodes fetch = .error (errParts vmMsg fetch onlineNodes)) ∧
    (errParts vmMsg fetch onlineNodes = [] ∨ collectParts fetch onlineNodes ≠ [] →
      get_vms onlineNodes fetch = .ok (collectParts fetch onlineNodes)) ∧
    (errParts ctMsg fetch onlineNodes ≠ [] →
      collectParts fetch onlineNodes = [] →
      get_containers onlineNodes fetch =
        .error (errParts ctMsg fetch onlineNodes)) ∧
    (errParts ctMsg fetch onlineNodes = [] ∨ collectParts fetch onlineNodes ≠ [] →
      get_containers onlineNodes fetch =
        .ok (collectParts fetch onlineNodes)) := by
  have hv := foldl_aggStep vmMsg fetch onlineNodes [] []
  have hc := foldl_aggStep ctMsg fetch onlineNodes [] []
  simp only [List.nil_append] at hv hc
  refine ⟨errParts_ne_nil_iff vmMsg fetch onlineNodes, ?_, ?_, ?_, ?_⟩
  · intro he hcoll
    simp [get_vms, hv, he, hcoll, List.isEmpty_iff]
  · intro h
    rcases h with he | hcoll
    · simp [get_vms, hv, he]
    · simp [get_vms, hv, hcoll, List.isEmpty_iff]
  · intro he hcoll
    simp [get_containers, hc, he, hcoll, List.isEmpty_iff]
  · intro h
    rcases h with he | hcoll
    · simp [get_containers, hc, he]
    · simp [get_containers, hc, hcoll, List.isEmpty_iff]

/-- The node-fetch oracle of the C5 counterexample: node `n1` answers
successfully with zero VMs, node `n2` fails. -/
def cexFetch : String → Except String (List RawVM) :=
  fun n => if n == "n1" then .ok [] else .error "boom"

/-- C5 witness: one of two nodes fails while the other holds a VM — the
failure is excluded and the successful node's VM is returned. -/
theorem get_vms_partial_failure_witness :
    get_vms ["n1", "n2"]
        (fun n => if n == "n1" then .ok [⟨100, "web"⟩] else .error "boom") =
      .ok [⟨100, "web", "n1"⟩] := by
  have h := (get_vms_partial_failure ["n1", "n2"]
    (fun n => if n == "n1" then .ok [⟨100, "web"⟩] else .error "boom")).2.2.1
    (Or.inr (by decide))
  rw [show collectParts
      (fun n => if n == "n1" then .ok [⟨100, "web"⟩] else .error "boom")
      ["n1", "n2"] = [⟨100, "web", "n1"⟩] from by decide] at h
  exact h

/-- C5 counterexample: node `n1` succeeds (with zero VMs) and node `n2`
fails; although a queried node succeeded, `get_vms` raises, because the code
raises whenever there are errors and the collected list is empty
(pve.py line 177), not only when every node failed. -/
theorem get_vms_partial_failure_cex :
    cexFetch "n1" = .ok [] ∧
    get_vms ["n1", "n2"] cexFetch =
      .error ["Error getting VMs from node 'n2': boom"] := by decide

end Pyadm

namespace Pyadm

/-! ### LDAP bind fallback (ldapcli/ldap.py `_connect`) -/

/-- `bind_username.split('@')[0]` (ldap.py line 224): the characters before
the first `@`. -/
def emailUser (u : String) : String :=
  String.mk (u.data.takeWhile (fun c => c != '@'))

/-- The eight DN patterns guessed at ldap.py lines 228-237, in order. -/
def dn_patterns (bind_username base_dn : String) : List String :=
  [ "uid=" ++ emailUser bind_username ++ "," ++ base_dn,
    "cn=" ++ emailUser bind_username ++ "," ++ base_dn,
    "uid=" ++ bind_username ++ "," ++ base_dn,
    "cn=" ++ bind_username ++ "," ++ base_dn,
    "uid=" ++ emailUser bind_username ++ ",cn=users," ++ base_dn,
    "cn=" ++ emailUser bind_username ++ ",cn=users," ++ base_dn,
    "uid=" ++ bind_username ++ ",cn=users," ++ base_dn,
    "cn=" ++ bind_username ++ ",cn=users," ++ base_dn ]

/-- `'@' in bind_username and not bind_username.startswith('cn=')`
(ldap.py line 222). -/
def looksLikeEmail (u : String) : Bool :=
  u.data.contains '@' && !(pyStartsWith u "cn=")

/-- The fallback loop of ldap.py lines 239-261: the first pattern whose bind
succeeds, together with the ordered list of patterns actually attempted
(the loop stops at the first success; an attempt that raises counts as a
failed bind — the inner `except` just continues). -/
def tryPatterns (bindOk : String → Bool) : List String → Option String × List String
  | [] => (none, [])
  | p :: rest =>
    if bindOk p then (some p, [p])
    else
      let r := tryPatterns bindOk rest
      (r.1, p :: r.2)

/-- The bind phase of `LDAPClient._connect` (ldap.py lines 215-281): the
outcome — `.ok` with the user string the connection is finally bound as, or
`.error ()` for the `ValueError` raised after all attempts fail — paired
with the trace of user strings whose bind was attempted.  `bindOk` is the
oracle for `conn.bind()` under the configured password. -/
def connectBind (bindOk : String → Bool) (bind_username base_dn : String) :
    Except Unit String × List String :=
  if bindOk bind_username then (.ok bind_username, [bind_username])
  else if looksLikeEmail bind_username then
    match tryPatterns bindOk (dn_patterns bind_username base_dn) with
    | (some dn, t) => (.ok dn, bind_username :: t)
    | (none, t) => (.error (), bind_username :: t)
  else (.error (), [bind_username])

theorem tryPatterns_fst (bindOk : String → Bool) :
    ∀ l : List String, (tryPatterns bindOk l).1 = l.find? bindOk := by
  intro l
  induction l with
  | nil => rfl
  | cons p rest ih =>
    cases hp : bindOk p with
    | true => simp [tryPatterns, List.find?, hp]
    | false => simp [tryPatterns, List.find?, hp, ih]

theorem tryPatterns_trace_subset (bindOk : String → Bool) :
    ∀ (l : List String) (a : String), a ∈ (tryPatterns bindOk l).2 → a ∈ l := by
  intro l
  induction l with
  | nil => intro a ha; simp [tryPatterns] at ha
  | cons p rest ih =>
    intro a ha
    cases hp : bindOk p with
    | true =>
      simp [tryPatterns, hp] at ha
      simp [ha]
    | false =>
      simp only [tryPatterns, hp, if_neg] at ha
      rcases List.mem_cons.mp (by simpa using ha) with rfl | ha'
      · simp
      · simp [ih a ha']

/-- C8: on bind failure with an email-looking username (contains `@`, does
not start with `cn=`), `_connect` retries the fixed eight-pattern DN
sequence built from the username and `base_dn`, adopting the first pattern
that binds; with a non-email username, or when every pattern fails, no
further retry happens and the connection attempt fails.  The trace conjunct
confirms that only the configured username and the fixed patterns are ever
attempted. -/
theorem ldap_bind_fallback (bindOk : String → Bool) (u b : String) :
    (bindOk u = true → connectBind bindOk u b = (.ok u, [u])) ∧
    (bindOk u = false → looksLikeEmail u = true →
      ∀ dn, (dn_patterns u b).find? bindOk = some dn →
        (connectBind bindOk u b).1 = .ok dn) ∧
    (bindOk u = false → looksLikeEmail u = true →
      (dn_patterns u b).find? bindOk = none →
        (connectBind bindOk u b).1 = .error ()) ∧
    (bindOk u = false → looksLikeEmail u = false →
      connectBind bindOk u b = (.error (), [u])) ∧
    (∀ a ∈ (connectBind bindOk u b).2, a = u ∨ a ∈ dn_patterns u b) ∧
    (dn_patterns u b).length = 8 := by
  refine ⟨?_, ?_, ?_, ?_, ?_, rfl⟩
  · intro h
    simp [connectBind, h]
  · intro hu he dn hdn
    rw [← tryPatterns_fst bindOk (dn_patterns u b)] at hdn
    rcases ht : tryPatterns bindOk (dn_patterns u b) with ⟨o, t⟩
    rw [ht] at hdn
    simp only at hdn
    subst hdn
    simp [connectBind, hu, he, ht]
  · intro hu he hdn
    rw [← tryPatterns_fst bindOk (dn_patterns u b)] at hdn
    rcases ht : tryPatterns bindOk (dn_patterns u b) with ⟨o, t⟩
    rw [ht] at hdn
    simp only at hdn
    subst hdn
    simp [connectBind, hu, he, ht]
  · intro hu he
    simp [connectBind, hu, he]
  · intro a ha
    by_cases hb : bindOk u = true
    · simp [connectBind, hb] at ha
      simp [ha]
    · rw [Bool.not_eq_true] at hb
      by_cases he : looksLikeEmail u = true
      · rcases ht : tryPatterns bindOk (dn_patterns u b) with ⟨o, t⟩
        have htr : (connectBind bindOk u b).2 = u :: t := by
          cases o with
          | some dn => simp [connectBind, hb, he, ht]
          | none => simp [connectBind, hb, he, ht]
        rw [htr] at ha
        rcases List.mem_cons.mp ha with rfl | ha'
        · left; rfl
        · right
          exact tryPatterns_trace_subset bindOk (dn_patterns u b) a
            (by rw [ht]; exact ha')
      · rw [Bool.not_eq_true] at he
        simp [connectBind, hb, he] at ha
        simp [ha]

/-- C8 witness: the username `alice@example.com` fails to bind directly and
the first guessed pattern `uid=alice,dc=example,dc=com` binds: `_connect`
adopts it. -/
theorem ldap_bind_fallback_witness :
    (connectBind (fun s => s == "uid=alice,dc=example,dc=com")
        "alice@example.com" "dc=example,dc=com").1 =
      .ok "uid=alice,dc=example,dc=com" :=
  (ldap_bind_fallback (fun s => s == "uid=alice,dc=example,dc=com")
    "alice@example.com" "dc=example,dc=com").2.1 (by decide) (by decide)
    "uid=alice,dc=example,dc=com" (by decide)

end Pyadm
